import Mathlib

/-!
Shallow embedding of the SmartByte persistence layer
(`src/modules/storage.py`), the reminder-scheduler cancel wrapper
(`src/modules/reminders.py`) and the AI-response parsers
(`src/ai_utils.py`), with theorems checking the specification's claims
about them.

The notes CSV is modelled as a list of rows, the stats JSON as a record,
and every storage operation is a pure function from store to store.
Timestamps (`pd.Timestamp.now().isoformat()`) are threaded in as an
explicit `now` argument.
-/

/-- A row of the notes table (`notes.csv`).  `title`/`text`/`tags` are
`Option String` because the on-disk CSV may hold missing (NaN) cells,
which `list_notes` normalizes to `""` on read. -/
structure Note where
  id : Int
  datetime : String
  title : Option String
  text : Option String
  tags : Option String
  xp : Int
deriving Repr, DecidableEq

/-- The stats singleton (`stats.json`). -/
structure Stats where
  total_xp : Int
  notes_created : Int
deriving Repr, DecidableEq

/-- The whole persistent state: notes table plus stats singleton. -/
structure Store where
  notes : List Note
  stats : Stats
deriving Repr, DecidableEq

/-- Model of `ensure_files` on a fresh data directory: empty table, zeroed stats. -/
def initStore : Store := ⟨[], ⟨0, 0⟩⟩

/-- Value of `df["id"].max()` for a nonempty frame (returns 0 on `[]`, where the
source never asks for it: `save_note` checks `df.empty` first). -/
def maxId : List Note → Int
  | [] => 0
  | n :: rest => rest.foldl (fun m x => max m x.id) n.id

/-- Membership test `note_id in df["id"].values`. -/
def hasId (l : List Note) (i : Int) : Prop := i ∈ l.map (·.id)

instance (l : List Note) (i : Int) : Decidable (hasId l i) := by
  unfold hasId; infer_instance

/-- The create operation `save_note(title, text, tags, xp)` from
`src/modules/storage.py`:
next id is `1` on an empty table, else `max(id) + 1`; the new row is
appended, then `total_xp += xp` and `notes_created += 1`. -/
def save_note (s : Store) (now title text tags : String) (xp : Int) :
    Int × Store :=
  let nid : Int := if s.notes.isEmpty then 1 else maxId s.notes + 1
  let new : Note := ⟨nid, now, some title, some text, some tags, xp⟩
  (nid, ⟨s.notes ++ [new],
    ⟨s.stats.total_xp + xp, s.stats.notes_created + 1⟩⟩)

/-- The update operation `update_note(note_id, title, text, tags, xp)`:
`False` when the table
is empty or the id is absent; otherwise rows whose `id` matches get new
title/text/tags/datetime.  The `xp` argument is accepted and ignored
(the source keeps the original XP on edits) and stats are not touched. -/
def update_note (s : Store) (now : String) (note_id : Int)
    (title text tags : String) (xp : Int) : Bool × Store :=
  if s.notes.isEmpty ∨ ¬ hasId s.notes note_id then (false, s)
  else
    (true, ⟨s.notes.map fun n =>
      if n.id = note_id then
        { n with title := some title, text := some text,
                 tags := some tags, datetime := now }
      else n, s.stats⟩)

/-- A Python value passed as `note_id` to `delete_note`: an int, a float
(a finite Python float is a rational number), or a str. -/
inductive PyVal
  | vint (n : Int)
  | vfloat (q : Rat)
  | vstr (s : String)

/-- Python `str.isspace` characters relevant to `int()`/`strip()`:
ASCII whitespace (space, tab, LF, CR, VT, FF).  Other Unicode
whitespace is not modelled. -/
def isPySpace (c : Char) : Bool :=
  decide (c = ' ' ∨ c = '\t' ∨ c = '\n' ∨ c = '\r'
    ∨ c = Char.ofNat 11 ∨ c = Char.ofNat 12)

/-- Strip `isPySpace` characters from both ends (Python `str.strip()`). -/
def pyStripL (l : List Char) : List Char :=
  ((l.dropWhile isPySpace).reverse.dropWhile isPySpace).reverse

def isPyDigit (c : Char) : Bool := decide ('0' ≤ c ∧ c ≤ '9')

def digitVal (c : Char) : Nat := c.toNat - 48

/-- Digits after the first one, allowing single `_` separators between
digits (PEP 515), accumulating the decimal value. -/
def digitsTail : List Char → Nat → Option Nat
  | [], acc => some acc
  | '_' :: c :: rest, acc =>
      if isPyDigit c then digitsTail rest (acc * 10 + digitVal c)
      else none
  | c :: rest, acc =>
      if isPyDigit c then digitsTail rest (acc * 10 + digitVal c)
      else none

/-- A nonempty all-digit (with `_` separators) sequence, as a `Nat`. -/
def parseUnsigned : List Char → Option Nat
  | [] => none
  | c :: rest => if isPyDigit c then digitsTail rest (digitVal c) else none

/-- Python `int(str)`: surrounding whitespace, an optional sign, then
decimal digits; anything else raises `ValueError` (here: `none`). -/
def pyIntOfStr (s : String) : Option Int :=
  match pyStripL s.data with
  | '+' :: rest => (parseUnsigned rest).map (fun n => (n : Int))
  | '-' :: rest => (parseUnsigned rest).map (fun n => -(n : Int))
  | rest => (parseUnsigned rest).map (fun n => (n : Int))

/-- Python `int(float)`: truncation toward zero. -/
def truncRat (q : Rat) : Int := if 0 ≤ q then q.floor else -((-q).floor)

/-- Python `int(x)` for the modelled values; `none` models the raised
`ValueError` that `delete_note` turns into `False`. -/
def pyInt : PyVal → Option Int
  | .vint n => some n
  | .vfloat q => some (truncRat q)
  | .vstr s => pyIntOfStr s

/-- Value `df[df["id"] == nid].iloc[0]` then `int(row.get("xp", 0) or 0)`: the
xp of the first row with the given id (0 if none, where the source's
`except` also yields 0). -/
def rowXp (l : List Note) (nid : Int) : Int :=
  match l.find? (fun n => n.id == nid) with
  | some row => row.xp
  | none => 0

/-- The delete operation `delete_note(note_id)`: `False` on an empty
table, a non-coercible
id, or an absent id; otherwise the first matching row's xp is read, all
rows with that id are dropped, and stats are decremented with a floor at
zero (`max(0, ...)`). -/
def delete_note (s : Store) (note_id : PyVal) : Bool × Store :=
  if s.notes.isEmpty then (false, s)
  else
    match pyInt note_id with
    | none => (false, s)
    | some nid =>
      if hasId s.notes nid then
        (true, ⟨s.notes.filter (fun n => n.id != nid),
          ⟨max 0 (s.stats.total_xp - rowXp s.notes nid),
           max 0 (s.stats.notes_created - 1)⟩⟩)
      else (false, s)

lemma foldl_max_ge (l : List Note) (a : Int) :
    a ≤ l.foldl (fun m x => max m x.id) a
    ∧ ∀ n ∈ l, n.id ≤ l.foldl (fun m x => max m x.id) a := by
  induction l generalizing a with
  | nil => simp
  | cons hd tl ih =>
    refine ⟨le_trans (le_max_left a hd.id) (ih (max a hd.id)).1, ?_⟩
    intro n hn
    rcases List.mem_cons.mp hn with h | h
    · subst h
      exact le_trans (le_max_right a n.id) (ih (max a n.id)).1
    · exact (ih (max a hd.id)).2 n h

lemma le_maxId {l : List Note} {n : Note} (h : n ∈ l) : n.id ≤ maxId l := by
  cases l with
  | nil => cases h
  | cons hd tl =>
    rcases List.mem_cons.mp h with h' | h'
    · subst h'; exact (foldl_max_ge tl n.id).1
    · exact (foldl_max_ge tl hd.id).2 n h'

lemma save_id_gt (s : Store) (now title text tags : String) (xp : Int) :
    ∀ n ∈ s.notes, n.id < (save_note s now title text tags xp).1 := by
  intro n hn
  have hne : ¬ s.notes.isEmpty := by
    cases hs : s.notes with
    | nil => rw [hs] at hn; cases hn
    | cons a b => simp [hs]
  show n.id < if s.notes.isEmpty then 1 else maxId s.notes + 1
  rw [if_neg hne]
  exact lt_of_le_of_lt (le_maxId hn) (lt_add_one _)

/-- C1 (amended): the id returned by `save_note` is `1` on an empty
store and `max existing id + 1` otherwise, hence strictly greater than
every id currently in the table; so consecutive creates yield strictly
increasing ids as long as no delete removes the maximal id. -/
theorem save_note_id_fresh (s : Store) (now title text tags : String)
    (xp : Int) :
    ((save_note s now title text tags xp).1
        = if s.notes.isEmpty then 1 else maxId s.notes + 1)
    ∧ ∀ n ∈ s.notes, n.id < (save_note s now title text tags xp).1 :=
  ⟨rfl, save_id_gt s now title text tags xp⟩

/-- Witness for C1's amended theorem at a concrete store. -/
theorem save_note_id_fresh_witness :
    ∀ n ∈ (Store.mk [⟨3, "t", some "a", some "b", some "", 5⟩] ⟨5, 1⟩).notes,
      n.id < (save_note ⟨[⟨3, "t", some "a", some "b", some "", 5⟩], ⟨5, 1⟩⟩
        "t2" "x" "y" "" 0).1 :=
  (save_note_id_fresh ⟨[⟨3, "t", some "a", some "b", some "", 5⟩], ⟨5, 1⟩⟩
    "t2" "x" "y" "" 0).2

/-- C1 counterexample: create, create, delete the second note, create —
the third create returns the id `2` again, so an id IS reused after the
note holding it is deleted. -/
theorem save_note_id_reused_after_delete :
    ((save_note (delete_note (save_note (save_note initStore
        "t1" "a" "x" "" 0).2 "t2" "b" "y" "" 0).2 (PyVal.vint 2)).2
        "t3" "c" "z" "" 0).1 = 2
    ∧ (save_note (save_note initStore "t1" "a" "x" "" 0).2
        "t2" "b" "y" "" 0).1 = 2
    ∧ (delete_note (save_note (save_note initStore "t1" "a" "x" "" 0).2
        "t2" "b" "y" "" 0).2 (PyVal.vint 2)).1 = true) := by
  decide

/-- Sample store used by the witnesses below. -/
def sampleStore : Store :=
  ⟨[⟨3, "2024-01-01T00:00:00", some "a", some "b", some "", 5⟩,
    ⟨5, "2024-01-02T00:00:00", some "c", some "d", some "t", 7⟩], ⟨12, 2⟩⟩

lemma hasId_ne_nil {l : List Note} {i : Int} (h : hasId l i) : l ≠ [] := by
  intro he; subst he; simp [hasId] at h

lemma isEmpty_false_of_ne {α : Type} {l : List α} (h : l ≠ []) :
    l.isEmpty = false := by
  cases l with
  | nil => exact absurd rfl h
  | cons a t => rfl

lemma update_note_pos (s : Store) (now : String) (note_id : Int)
    (title text tags : String) (xp : Int) (h : hasId s.notes note_id) :
    update_note s now note_id title text tags xp
      = (true, ⟨s.notes.map fun n =>
          if n.id = note_id then
            { n with title := some title, text := some text,
                     tags := some tags, datetime := now }
          else n, s.stats⟩) := by
  have hcond : ¬ (s.notes.isEmpty = true ∨ ¬ hasId s.notes note_id) := by
    rintro (he | hn)
    · rw [isEmpty_false_of_ne (hasId_ne_nil h)] at he; cases he
    · exact hn h
  unfold update_note
  rw [if_neg hcond]

/-- C3: updating an existing id returns `true`, overwrites exactly the
matching note's title/text/tags/timestamp (keeping its id and its xp),
leaves the stats singleton and every other note unchanged, and never
adds a row (the table keeps its length). -/
theorem update_note_existing (s : Store) (now : String) (note_id : Int)
    (title text tags : String) (xp : Int) (h : hasId s.notes note_id) :
    (update_note s now note_id title text tags xp).1 = true
    ∧ (update_note s now note_id title text tags xp).2.stats = s.stats
    ∧ (update_note s now note_id title text tags xp).2.notes.length
        = s.notes.length
    ∧ (∀ n ∈ s.notes, n.id ≠ note_id →
        n ∈ (update_note s now note_id title text tags xp).2.notes)
    ∧ (∀ n ∈ s.notes, n.id = note_id →
        { n with title := some title, text := some text, tags := some tags,
                 datetime := now } ∈
          (update_note s now note_id title text tags xp).2.notes) := by
  rw [update_note_pos s now note_id title text tags xp h]
  refine ⟨rfl, rfl, by simp, ?_, ?_⟩
  · intro n hn hne
    exact List.mem_map.mpr ⟨n, hn, if_neg hne⟩
  · intro n hn heq
    exact List.mem_map.mpr ⟨n, hn, if_pos heq⟩

/-- Witness for C3 at a concrete store and id. -/
theorem update_note_existing_witness :
    (update_note sampleStore "2024-01-03T00:00:00" 3 "T" "X" "g" 0).1 = true
    ∧ (update_note sampleStore "2024-01-03T00:00:00" 3 "T" "X" "g" 0).2.stats
        = sampleStore.stats :=
  ⟨(update_note_existing sampleStore "2024-01-03T00:00:00" 3 "T" "X" "g" 0
      (by decide)).1,
   (update_note_existing sampleStore "2024-01-03T00:00:00" 3 "T" "X" "g" 0
      (by decide)).2.1⟩

/-- C4: updating a nonexistent id returns `false` and leaves the store
(notes and stats) exactly as it was. -/
theorem update_note_missing (s : Store) (now : String) (note_id : Int)
    (title text tags : String) (xp : Int) (h : ¬ hasId s.notes note_id) :
    update_note s now note_id title text tags xp = (false, s) := by
  unfold update_note
  rw [if_pos (Or.inr h)]

/-- Witness for C4 at a concrete store and absent id. -/
theorem update_note_missing_witness :
    update_note sampleStore "2024-01-03T00:00:00" 4 "T" "X" "g" 0
      = (false, sampleStore) :=
  update_note_missing sampleStore "2024-01-03T00:00:00" 4 "T" "X" "g" 0
    (by decide)

lemma delete_note_neg (s : Store) (input : PyVal)
    (h : ∀ nid, pyInt input = some nid → ¬ hasId s.notes nid) :
    delete_note s input = (false, s) := by
  unfold delete_note
  split
  · rfl
  · split
    · rfl
    · rename_i nid heq
      rw [if_neg (h nid heq)]

lemma delete_note_pos_eq (s : Store) (input : PyVal) (nid : Int)
    (hp : pyInt input = some nid) (h : hasId s.notes nid) :
    delete_note s input
      = (true, ⟨s.notes.filter (fun n => n.id != nid),
          ⟨max 0 (s.stats.total_xp - rowXp s.notes nid),
           max 0 (s.stats.notes_created - 1)⟩⟩) := by
  unfold delete_note
  rw [isEmpty_false_of_ne (hasId_ne_nil h)]
  simp only [Bool.false_eq_true, if_false, hp, if_pos h]

/-- C5: `delete_note` returns `false` and leaves the store untouched on
a malformed (non-int-coercible) or absent id; on a present id it returns
`true`, a second delete of the same id returns `false` and changes
nothing, and the stats are decremented by the deleted row's xp and by 1,
each floored at 0. -/
theorem delete_note_idempotent (s : Store) (input : PyVal) :
    (pyInt input = none → delete_note s input = (false, s))
    ∧ (∀ nid, pyInt input = some nid → ¬ hasId s.notes nid →
        delete_note s input = (false, s))
    ∧ (∀ nid, pyInt input = some nid → hasId s.notes nid →
        (delete_note s input).1 = true
        ∧ delete_note (delete_note s input).2 input
            = (false, (delete_note s input).2)
        ∧ (∀ row, s.notes.find? (fun n => n.id == nid) = some row →
            (delete_note s input).2.stats.total_xp
              = max 0 (s.stats.total_xp - row.xp)
            ∧ (delete_note s input).2.stats.notes_created
              = max 0 (s.stats.notes_created - 1))) := by
  refine ⟨?_, ?_, ?_⟩
  · intro hp
    exact delete_note_neg s input (by intro nid hn; rw [hp] at hn; cases hn)
  · intro nid hp hn
    refine delete_note_neg s input ?_
    intro nid' hp'
    rw [hp] at hp'
    injection hp' with e
    subst e
    exact hn
  · intro nid hp h
    rw [delete_note_pos_eq s input nid hp h]
    refine ⟨rfl, ?_, ?_⟩
    · apply delete_note_neg
      intro nid' hp'
      rw [hp] at hp'
      injection hp' with e
      subst e
      simp only [hasId, List.mem_map, List.mem_filter, bne_iff_ne, ne_eq]
      rintro ⟨n, ⟨_, hne⟩, he⟩
      exact hne he
    · intro row hrow
      simp [rowXp, hrow]

/-- Witness for C5 at a concrete store and present id. -/
theorem delete_note_idempotent_witness :
    (delete_note sampleStore (PyVal.vint 3)).1 = true :=
  ((delete_note_idempotent sampleStore (PyVal.vint 3)).2.2 3 rfl (by decide)).1

/-- C10: `delete_note` accepts anything `int()` accepts — the float 5.7
(the rational 57/10) truncates to 5 and the string `"5"` parses to 5,
both deleting note 5 and returning `true` — while `"5.7"` and `"abc"`
(rejected by `int()`) return `false` with the store untouched. -/
theorem delete_note_int_coercion (s : Store) (h : hasId s.notes 5) :
    (delete_note s (PyVal.vfloat (57 / 10))).1 = true
    ∧ ¬ hasId (delete_note s (PyVal.vfloat (57 / 10))).2.notes 5
    ∧ (∀ n ∈ s.notes, n.id ≠ 5 →
        n ∈ (delete_note s (PyVal.vfloat (57 / 10))).2.notes)
    ∧ (delete_note s (PyVal.vstr "5")).1 = true
    ∧ ¬ hasId (delete_note s (PyVal.vstr "5")).2.notes 5
    ∧ (∀ n ∈ s.notes, n.id ≠ 5 →
        n ∈ (delete_note s (PyVal.vstr "5")).2.notes)
    ∧ delete_note s (PyVal.vstr "5.7") = (false, s)
    ∧ delete_note s (PyVal.vstr "abc") = (false, s) := by
  have hfloor : Rat.floor (57 / 10 : Rat) = ⌊(57 / 10 : ℚ)⌋ :=
    (Rat.floor_def' _).trans Rat.floor_def.symm
  have hf : pyInt (PyVal.vfloat (57 / 10)) = some 5 := by
    show some (truncRat (57 / 10)) = some 5
    congr 1
    unfold truncRat
    rw [if_pos (by norm_num), hfloor, Int.floor_eq_iff]
    constructor <;> norm_num
  have hs5 : pyInt (PyVal.vstr "5") = some 5 := by decide
  have hbad1 : pyInt (PyVal.vstr "5.7") = none := by decide
  have hbad2 : pyInt (PyVal.vstr "abc") = none := by decide
  refine ⟨?_, ?_, ?_, ?_, ?_, ?_, ?_, ?_⟩
  · rw [delete_note_pos_eq s _ 5 hf h]
  · rw [delete_note_pos_eq s _ 5 hf h]
    simp only [hasId, List.mem_map, List.mem_filter, bne_iff_ne, ne_eq]
    rintro ⟨n, ⟨_, hne⟩, he⟩
    exact hne he
  · intro n hn hne
    rw [delete_note_pos_eq s _ 5 hf h]
    exact List.mem_filter.mpr ⟨hn, by simpa using hne⟩
  · rw [delete_note_pos_eq s _ 5 hs5 h]
  · rw [delete_note_pos_eq s _ 5 hs5 h]
    simp only [hasId, List.mem_map, List.mem_filter, bne_iff_ne, ne_eq]
    rintro ⟨n, ⟨_, hne⟩, he⟩
    exact hne he
  · intro n hn hne
    rw [delete_note_pos_eq s _ 5 hs5 h]
    exact List.mem_filter.mpr ⟨hn, by simpa using hne⟩
  · exact delete_note_neg s _ (by intro nid hn; rw [hbad1] at hn; cases hn)
  · exact delete_note_neg s _ (by intro nid hn; rw [hbad2] at hn; cases hn)

/-- Witness for C10 at a concrete store containing note 5. -/
theorem delete_note_int_coercion_witness :
    (delete_note sampleStore (PyVal.vfloat (57 / 10))).1 = true
    ∧ delete_note sampleStore (PyVal.vstr "abc") = (false, sampleStore) :=
  ⟨(delete_note_int_coercion sampleStore (by decide)).1,
   (delete_note_int_coercion sampleStore (by decide)).2.2.2.2.2.2.2⟩

/-- One storage operation in a create/delete sequence. -/
inductive Op
  | create (now title text tags : String) (xp : Int)
  | del (note_id : PyVal)

/-- Creates pass a non-negative xp (true of every caller in the
repository: xp is computed there as `5 + min(50, len(text)//20)`). -/
def GoodOp : Op → Prop
  | .create _ _ _ _ xp => 0 ≤ xp
  | .del _ => True

instance (op : Op) : Decidable (GoodOp op) :=
  match op with
  | .create _ _ _ _ xp => inferInstanceAs (Decidable (0 ≤ xp))
  | .del _ => inferInstanceAs (Decidable True)

/-- Apply one operation to the store, keeping the resulting state. -/
def applyOp (s : Store) : Op → Store
  | .create now title text tags xp => (save_note s now title text tags xp).2
  | .del note_id => (delete_note s note_id).2

/-- Run a sequence of create/delete operations. -/
def runOps : Store → List Op → Store
  | s, [] => s
  | s, op :: rest => runOps (applyOp s op) rest

/-- The from-scratch recomputation of `total_xp`: sum of the xp column. -/
def sumXp (l : List Note) : Int := (l.map (·.xp)).sum

lemma sumXp_cons (a : Note) (l : List Note) :
    sumXp (a :: l) = a.xp + sumXp l := by
  simp [sumXp]

lemma sumXp_nonneg {l : List Note} (h : ∀ n ∈ l, 0 ≤ n.xp) :
    0 ≤ sumXp l := by
  apply List.sum_nonneg
  intro x hx
  obtain ⟨n, hn, rfl⟩ := List.mem_map.mp hx
  exact h n hn

/-- Invariant of stores reachable from `initStore` by well-behaved
operations: xp non-negative, ids unique, and both aggregates equal to
their from-scratch recomputation over the table. -/
def StoreInv (s : Store) : Prop :=
  (∀ n ∈ s.notes, 0 ≤ n.xp)
  ∧ (s.notes.map (·.id)).Nodup
  ∧ s.stats.total_xp = sumXp s.notes
  ∧ s.stats.notes_created = (s.notes.length : Int)

lemma remove_by_id (l : List Note) (nid : Int) (hnd : (l.map (·.id)).Nodup)
    (row : Note) (hf : l.find? (fun n => n.id == nid) = some row) :
    sumXp (l.filter (fun n => n.id != nid)) = sumXp l - row.xp
    ∧ ((l.filter (fun n => n.id != nid)).length : Int)
        = (l.length : Int) - 1 := by
  induction l with
  | nil => cases hf
  | cons a rest ih =>
    rw [List.map_cons, List.nodup_cons] at hnd
    by_cases ha : a.id = nid
    · have hfa : (a :: rest).find? (fun n => n.id == nid) = some a :=
        List.find?_cons_of_pos _ (by simp [ha])
      have e : row = a := by
        have h' := hf.symm.trans hfa
        injection h'
      have hrest : ∀ n ∈ rest, (n.id != nid) = true := by
        intro n hn
        simp only [bne_iff_ne, ne_eq]
        intro he
        apply hnd.1
        rw [ha]
        exact he ▸ List.mem_map_of_mem (·.id) hn
      have hfil : (a :: rest).filter (fun n => n.id != nid) = rest := by
        rw [List.filter_cons_of_neg (by simp [ha]),
          List.filter_eq_self.mpr hrest]
      rw [hfil, sumXp_cons, e]
      constructor
      · ring
      · simp only [List.length_cons]
        push_cast
        ring
    · have hf' : rest.find? (fun n => n.id == nid) = some row := by
        rwa [List.find?_cons_of_neg _ (by simp [ha])] at hf
      obtain ⟨ihs, ihl⟩ := ih hnd.2 hf'
      have hfil : (a :: rest).filter (fun n => n.id != nid)
          = a :: rest.filter (fun n => n.id != nid) :=
        List.filter_cons_of_pos (by simp [ha])
      rw [hfil, sumXp_cons, sumXp_cons, ihs]
      constructor
      · ring
      · simp only [List.length_cons]
        push_cast
        omega

lemma inv_append (s : Store) (i : Int) (now title text tags : String)
    (xp : Int) (hs : StoreInv s) (hxp : 0 ≤ xp)
    (hi : ∀ n ∈ s.notes, n.id < i) :
    StoreInv ⟨s.notes ++ [⟨i, now, some title, some text, some tags, xp⟩],
      ⟨s.stats.total_xp + xp, s.stats.notes_created + 1⟩⟩ := by
  obtain ⟨h1, h2, h3, h4⟩ := hs
  refine ⟨?_, ?_, ?_, ?_⟩
  · intro n hn
    rcases List.mem_append.mp hn with h | h
    · exact h1 n h
    · rw [List.mem_singleton.mp h]
      exact hxp
  · rw [List.map_append, List.nodup_append]
    refine ⟨h2, List.nodup_singleton _, ?_⟩
    intro j hj hj'
    obtain ⟨n, hn, rfl⟩ := List.mem_map.mp hj
    exact absurd (List.mem_singleton.mp hj') (ne_of_lt (hi n hn))
  · rw [h3]
    simp [sumXp]
  · rw [h4]
    simp

lemma inv_save (s : Store) (now title text tags : String) (xp : Int)
    (hs : StoreInv s) (hxp : 0 ≤ xp) :
    StoreInv (save_note s now title text tags xp).2 :=
  inv_append s (if s.notes.isEmpty then 1 else maxId s.notes + 1)
    now title text tags xp hs hxp
    (fun n hn => save_id_gt s now title text tags xp n hn)

lemma inv_delete (s : Store) (input : PyVal) (hs : StoreInv s) :
    StoreInv (delete_note s input).2 := by
  obtain ⟨h1, h2, h3, h4⟩ := hs
  by_cases hm : ∃ nid, pyInt input = some nid ∧ hasId s.notes nid
  · obtain ⟨nid, hp, h⟩ := hm
    have hfs : (s.notes.find? (fun n => n.id == nid)).isSome := by
      rw [List.find?_isSome]
      obtain ⟨n, hn, he⟩ := List.mem_map.mp h
      exact ⟨n, hn, by simp [he]⟩
    obtain ⟨row, hrow⟩ := Option.isSome_iff_exists.mp hfs
    have hrmem : row ∈ s.notes := List.mem_of_find?_eq_some hrow
    obtain ⟨hsum, hlen⟩ := remove_by_id s.notes nid h2 row hrow
    have hrx : rowXp s.notes nid = row.xp := by simp [rowXp, hrow]
    rw [delete_note_pos_eq s input nid hp h]
    refine ⟨?_, ?_, ?_, ?_⟩
    · intro n hn
      exact h1 n (List.mem_filter.mp hn).1
    · exact h2.sublist ((List.filter_sublist s.notes).map
        (fun n : Note => n.id))
    · show max 0 (s.stats.total_xp - rowXp s.notes nid) = sumXp _
      rw [hrx, h3, ← hsum]
      exact max_eq_right (sumXp_nonneg fun n hn =>
        h1 n (List.mem_filter.mp hn).1)
    · show max 0 (s.stats.notes_created - 1) = _
      rw [h4, hlen]
      apply max_eq_right
      have hpos : 0 < s.notes.length :=
        List.length_pos.mpr (List.ne_nil_of_mem hrmem)
      omega
  · push_neg at hm
    rw [delete_note_neg s input hm]
    exact ⟨h1, h2, h3, h4⟩

lemma inv_runOps (s : Store) (ops : List Op) (hs : StoreInv s)
    (h : ∀ op ∈ ops, GoodOp op) : StoreInv (runOps s ops) := by
  induction ops generalizing s with
  | nil => exact hs
  | cons op rest ih =>
    apply ih
    · cases op with
      | create now title text tags xp =>
          exact inv_save s now title text tags xp hs
            (h _ (List.mem_cons_self _ _))
      | del input => exact inv_delete s input hs
    · intro o ho
      exact h o (List.mem_cons_of_mem _ ho)

/-- C2 (amended): after any sequence of create/delete operations from
the initialized empty store in which every create passes a non-negative
xp (as every caller in the repository does), the stats singleton equals
the from-scratch recomputation: `total_xp` is the sum of xp over the
currently-existing notes and `notes_created` is their count. -/
theorem stats_match_recompute (ops : List Op)
    (h : ∀ op ∈ ops, GoodOp op) :
    (runOps initStore ops).stats.total_xp
      = sumXp (runOps initStore ops).notes
    ∧ (runOps initStore ops).stats.notes_created
      = ((runOps initStore ops).notes.length : Int) := by
  have hinv := inv_runOps initStore ops ⟨by simp [initStore], by
    simp [initStore], rfl, rfl⟩ h
  exact ⟨hinv.2.2.1, hinv.2.2.2⟩

/-- Witness for C2's amended theorem on a concrete operation list. -/
theorem stats_match_recompute_witness :
    (runOps initStore [Op.create "t1" "a" "x" "" 5,
        Op.del (PyVal.vint 1)]).stats.total_xp
      = sumXp (runOps initStore [Op.create "t1" "a" "x" "" 5,
        Op.del (PyVal.vint 1)]).notes :=
  (stats_match_recompute [Op.create "t1" "a" "x" "" 5,
    Op.del (PyVal.vint 1)] (by decide)).1

/-- C2 counterexample: a create with negative xp breaks the claimed
invariant because delete floors `total_xp` at 0 — after
create(xp = -5), create(xp = 10), delete(id 2), the stored `total_xp`
is 0 while the table sums to -5. -/
theorem stats_drift_on_negative_xp :
    (runOps initStore [Op.create "t1" "a" "x" "" (-5),
        Op.create "t2" "b" "y" "" 10,
        Op.del (PyVal.vint 2)]).stats.total_xp = 0
    ∧ sumXp (runOps initStore [Op.create "t1" "a" "x" "" (-5),
        Op.create "t2" "b" "y" "" 10,
        Op.del (PyVal.vint 2)]).notes = -5 := by
  decide

/-- A note as returned by `list_notes` / `df.to_dict("records")` after
`fillna("")`: no missing fields remain. -/
structure NoteRec where
  id : Int
  datetime : String
  title : String
  text : String
  tags : String
  xp : Int
deriving Repr, DecidableEq

/-- Python string `<=` (used by pandas when sorting an object column):
lexicographic comparison of the code-point sequences. -/
def strLeB : List Char → List Char → Bool
  | [], _ => true
  | _ :: _, [] => false
  | a :: as, b :: bs => if a = b then strLeB as bs else decide (a < b)

lemma strLeB_total (a b : List Char) :
    strLeB a b = true ∨ strLeB b a = true := by
  induction a generalizing b with
  | nil => left; rfl
  | cons c as ih =>
    cases b with
    | nil => right; rfl
    | cons d bs =>
      by_cases h : c = d
      · subst h
        rcases ih bs with h' | h'
        · left; simpa [strLeB] using h'
        · right; simpa [strLeB] using h'
      · rcases lt_or_gt_of_ne h with hlt | hgt
        · left; simp [strLeB, h, hlt]
        · right; simp [strLeB, Ne.symm h, hgt]

lemma strLeB_trans {a b c : List Char} (h1 : strLeB a b = true)
    (h2 : strLeB b c = true) : strLeB a c = true := by
  induction a generalizing b c with
  | nil => rfl
  | cons x as ih =>
    cases b with
    | nil => simp [strLeB] at h1
    | cons y bs =>
      cases c with
      | nil => simp [strLeB] at h2
      | cons z cs =>
        by_cases hxy : x = y
        · subst hxy
          by_cases hyz : x = z
          · subst hyz
            simp only [strLeB, if_pos rfl] at h1 h2 ⊢
            exact ih h1 h2
          · simp only [strLeB, if_neg hyz] at h2 ⊢
            exact h2
        · by_cases hyz : y = z
          · subst hyz
            simp only [strLeB, if_neg hxy] at h1 ⊢
            exact h1
          · simp only [strLeB, if_neg hxy, if_neg hyz,
              decide_eq_true_eq] at h1 h2
            have hxz : x < z := lt_trans h1 h2
            simp [strLeB, ne_of_lt hxz, hxz]

/-- Comparator of `sort_values("datetime", ascending=False)`: row `a`
precedes row
`b` when `a.datetime >= b.datetime` in string order. -/
def dtGe (a b : NoteRec) : Prop :=
  strLeB b.datetime.data a.datetime.data = true

instance : DecidableRel dtGe := fun a b =>
  inferInstanceAs (Decidable (_ = true))

instance : IsTotal NoteRec dtGe :=
  ⟨fun a b => strLeB_total b.datetime.data a.datetime.data⟩

instance : IsTrans NoteRec dtGe :=
  ⟨fun _ _ _ h1 h2 => strLeB_trans h2 h1⟩

/-- One record of `df.to_dict(orient="records")` after the `fillna("")`
passes: missing title/text/tags become `""`. -/
def fillNote (n : Note) : NoteRec :=
  ⟨n.id, n.datetime, n.title.getD "", n.text.getD "", n.tags.getD "", n.xp⟩

/-- The read operation `list_notes(limit)`: `[]` on an empty table,
else fill the NaN
holes, sort by datetime descending and keep the first `limit` rows.
(The sort is modelled by insertion sort; the claims proved about it do
not depend on how pandas orders rows with equal timestamps.) -/
def list_notes (s : Store) (limit : Nat) : List NoteRec :=
  if s.notes.isEmpty then []
  else (List.insertionSort dtGe (s.notes.map fillNote)).take limit

/-- Three notes created in id order at distinct, increasing timestamps. -/
def threeNoteStore : Store :=
  ⟨[⟨1, "2024-01-01T10:00:00", some "n1", some "x1", some "", 5⟩,
    ⟨2, "2024-01-02T10:00:00", some "n2", some "x2", some "", 5⟩,
    ⟨3, "2024-01-03T10:00:00", some "n3", some "x3", some "", 5⟩],
   ⟨15, 3⟩⟩

/-- C6: `list_notes` returns the table sorted by timestamp descending,
truncated to at most `limit` rows, every returned record being the
empty-string normalization of a stored row; and on three notes with
distinct timestamps `list_notes 2` is exactly the two newest, newest
first. -/
theorem list_notes_sorted_normalized (s : Store) (limit : Nat) :
    List.Sorted dtGe (list_notes s limit)
    ∧ (list_notes s limit).length ≤ limit
    ∧ (∀ r ∈ list_notes s limit, ∃ n ∈ s.notes, r = fillNote n)
    ∧ list_notes threeNoteStore 2
        = [⟨3, "2024-01-03T10:00:00", "n3", "x3", "", 5⟩,
           ⟨2, "2024-01-02T10:00:00", "n2", "x2", "", 5⟩] := by
  refine ⟨?_, ?_, ?_, by decide⟩
  · by_cases he : s.notes.isEmpty
    · simp [list_notes, he]
    · rw [list_notes, if_neg he]
      exact (List.sorted_insertionSort dtGe (s.notes.map fillNote)).sublist
        (List.take_sublist _ _)
  · by_cases he : s.notes.isEmpty
    · simp [list_notes, he]
    · rw [list_notes, if_neg he]
      exact List.length_take_le _ _
  · intro r hr
    by_cases he : s.notes.isEmpty
    · rw [list_notes, if_pos he] at hr
      cases hr
    · rw [list_notes, if_neg he] at hr
      have hr' : r ∈ List.insertionSort dtGe (s.notes.map fillNote) :=
        (List.take_sublist _ _).mem hr
      have hr'' : r ∈ s.notes.map fillNote :=
        (List.mem_insertionSort dtGe).mp hr'
      obtain ⟨n, hn, he'⟩ := List.mem_map.mp hr''
      exact ⟨n, hn, he'.symm⟩

/-- Witness for C6 at a concrete store and limit. -/
theorem list_notes_sorted_normalized_witness :
    ∀ r ∈ list_notes threeNoteStore 2,
      ∃ n ∈ threeNoteStore.notes, r = fillNote n :=
  (list_notes_sorted_normalized threeNoteStore 2).2.2.1

/-- A pending one-shot job in the scheduler's job table (only the id
matters to `remove_job`; the message is the notification payload). -/
structure Job where
  id : String
  message : String
deriving Repr, DecidableEq

/-- The cancel wrapper `remove_job(jid)` from
`src/modules/reminders.py`.  Modelled from
the spec for the library call it wraps: APScheduler's
`scheduler.remove_job` deletes the pending job with that id or raises
`JobLookupError`; the wrapper returns `True` on success and catches the
exception into `False`. -/
def remove_job (tbl : List Job) (jid : String) : Bool × List Job :=
  if tbl.any (fun j => j.id == jid) then
    (true, tbl.filter (fun j => j.id != jid))
  else (false, tbl)

/-- C8: `remove_job` returns `true` exactly when a pending job with the
id existed, removing it and nothing else; cancelling the same id twice
returns `true` then `false`, the second call changing nothing (a plain
`false`, not an error). -/
theorem remove_job_cancel (tbl : List Job) (jid : String) :
    ((remove_job tbl jid).1 = true ↔ ∃ j ∈ tbl, j.id = jid)
    ∧ (∀ j, j ∈ (remove_job tbl jid).2 ↔ j ∈ tbl ∧ j.id ≠ jid)
    ∧ remove_job (remove_job tbl jid).2 jid
        = (false, (remove_job tbl jid).2) := by
  by_cases hx : ∃ j ∈ tbl, j.id = jid
  · obtain ⟨j0, hj0, he0⟩ := hx
    have hany : tbl.any (fun j => j.id == jid) = true :=
      List.any_eq_true.mpr ⟨j0, hj0, by simp [he0]⟩
    have hpos : remove_job tbl jid
        = (true, tbl.filter (fun j => j.id != jid)) := by
      unfold remove_job
      rw [if_pos hany]
    rw [hpos]
    refine ⟨⟨fun _ => ⟨j0, hj0, he0⟩, fun _ => rfl⟩, ?_, ?_⟩
    · intro j
      simp [List.mem_filter]
    · have hnone : (tbl.filter (fun j => j.id != jid)).any
          (fun j => j.id == jid) = false := by
        rw [Bool.eq_false_iff]
        intro hc
        obtain ⟨j, hj, hje⟩ := List.any_eq_true.mp hc
        have := (List.mem_filter.mp hj).2
        simp at hje this
        exact this hje
      unfold remove_job
      rw [if_neg (by rw [hnone]; intro hc; cases hc)]
  · have hany : tbl.any (fun j => j.id == jid) = false := by
      rw [Bool.eq_false_iff]
      intro hc
      obtain ⟨j, hj, hje⟩ := List.any_eq_true.mp hc
      exact hx ⟨j, hj, by simpa using hje⟩
    have hneg : remove_job tbl jid = (false, tbl) := by
      unfold remove_job
      rw [if_neg (by rw [hany]; intro hc; cases hc)]
    rw [hneg]
    refine ⟨⟨fun hc => absurd hc (by simp), fun hc => absurd hc hx⟩, ?_, hneg⟩
    intro j
    constructor
    · intro hj
      refine ⟨hj, fun he => hx ⟨j, hj, he⟩⟩
    · intro hj
      exact hj.1

/-- Witness for C8 on a concrete job table. -/
theorem remove_job_cancel_witness :
    (remove_job [⟨"a", "ping"⟩, ⟨"b", "pong"⟩] "a").1 = true ↔
      ∃ j ∈ [Job.mk "a" "ping", Job.mk "b" "pong"], j.id = "a" :=
  (remove_job_cancel [⟨"a", "ping"⟩, ⟨"b", "pong"⟩] "a").1

lemma head?_dropWhile_false (p : Char → Bool) (l : List Char) (c : Char)
    (h : (l.dropWhile p).head? = some c) : p c = false := by
  induction l with
  | nil => cases h
  | cons a rest ih =>
    rw [List.dropWhile_cons] at h
    by_cases hp : p a = true
    · rw [if_pos hp] at h
      exact ih h
    · rw [if_neg hp] at h
      injection h with e
      rw [← e]
      exact Bool.eq_false_iff.mpr hp

lemma dropWhile_head_eq_self (p : Char → Bool) (l : List Char)
    (h : ∀ c, l.head? = some c → p c = false) : l.dropWhile p = l := by
  cases l with
  | nil => rfl
  | cons a rest =>
    rw [List.dropWhile_cons, if_neg (by simp [h a rfl])]

lemma dropWhile_idem (p : Char → Bool) (l : List Char) :
    (l.dropWhile p).dropWhile p = l.dropWhile p :=
  dropWhile_head_eq_self p _ (fun c hc => head?_dropWhile_false p l c hc)

lemma strip_of_stripped (A : List Char)
    (hA : ∀ c, A.head? = some c → isPySpace c = false) :
    pyStripL (A.reverse.dropWhile isPySpace).reverse
      = (A.reverse.dropWhile isPySpace).reverse := by
  set B := A.reverse.dropWhile isPySpace with hB
  have hstep1 : B.reverse.dropWhile isPySpace = B.reverse := by
    apply dropWhile_head_eq_self
    intro c hc
    rw [List.head?_reverse] at hc
    have hBne : B ≠ [] := by
      intro he
      rw [he] at hc
      cases hc
    obtain ⟨t, ht⟩ := List.dropWhile_suffix (l := A.reverse) isPySpace
    rw [← hB] at ht
    have hlast : A.reverse.getLast? = some c := by
      rw [← ht, List.getLast?_append_of_ne_nil t hBne]
      exact hc
    rw [List.getLast?_reverse] at hlast
    obtain ⟨c', hc'⟩ : ∃ c', A.head? = some c' := ⟨c, hlast⟩
    rw [hc'] at hlast
    injection hlast with e
    rw [← e]
    exact hA c' hc'
  show ((B.reverse.dropWhile isPySpace).reverse.dropWhile isPySpace).reverse
      = B.reverse
  rw [hstep1, List.reverse_reverse, hB, dropWhile_idem]

lemma pyStripL_idem (l : List Char) : pyStripL (pyStripL l) = pyStripL l :=
  strip_of_stripped (l.dropWhile isPySpace)
    (fun c hc => head?_dropWhile_false isPySpace l c hc)

/-- Python `text.split("\n")`: split on newlines, keeping empty pieces. -/
def splitLinesL : List Char → List (List Char)
  | [] => [[]]
  | c :: rest =>
      if c = '\n' then [] :: splitLinesL rest
      else
        match splitLinesL rest with
        | h :: t => (c :: h) :: t
        | [] => [[c]]

/-- Truthiness of the loop state `current_q`/`current_question`:
Python's `None` and `""` are falsy. -/
def pyTruthy : Option (List Char) → Bool
  | some q => !q.isEmpty
  | none => false

/-- The parsing loop of `generate_flashcards` (src/ai_utils.py): each
line is stripped; a `Q:` line starts a pending question; an `A:` line
with a truthy pending question emits the pair and clears it; all other
lines leave the state unchanged. -/
def flashLoop : List (List Char) → Option (List Char) →
    List (String × String)
  | [], _ => []
  | line :: rest, cq =>
      if ['Q', ':'].isPrefixOf (pyStripL line) then
        flashLoop rest (some (pyStripL ((pyStripL line).drop 2)))
      else
        match cq with
        | some q =>
            if ['A', ':'].isPrefixOf (pyStripL line) && !q.isEmpty then
              (String.mk q, String.mk (pyStripL ((pyStripL line).drop 2)))
                :: flashLoop rest none
            else flashLoop rest (some q)
        | none => flashLoop rest none

/-- Parsing of `generate_flashcards` applied to a response text.
(The parsing loop
never consults the requested card count.) -/
def parseFlashcards (resp : String) : List (String × String) :=
  flashLoop (splitLinesL (pyStripL resp.data)) none

/-- Everything after the first `:` (Python `line.split(":", 1)[1]`;
total, returning `[]` when there is no colon — the callers guard). -/
def colonTail : List Char → List Char
  | [] => []
  | c :: rest => if c = ':' then rest else colonTail rest

/-- The final `if current_question and current_answer:
questions.append(...)` step:
emit the pending pair only when both parts are truthy. -/
def finishPair (cq ca : Option (List Char)) : List (String × String) :=
  match cq, ca with
  | some q, some a =>
      if !q.isEmpty && !a.isEmpty then [(String.mk q, String.mk a)]
      else []
  | _, _ => []

/-- The parsing loop of `generate_quiz_questions` (src/ai_utils.py):
blank lines are skipped; a line starting with `Q` and containing `:`
saves any pending complete pair and starts a new question; a line
starting with `A` and containing `:` sets the pending answer; the final
pending pair is appended after the loop. -/
def quizLoop : List (List Char) → Option (List Char) →
    Option (List Char) → List (String × String)
  | [], cq, ca => finishPair cq ca
  | line :: rest, cq, ca =>
      if (pyStripL line).isEmpty then quizLoop rest cq ca
      else if ((pyStripL line).head? == some 'Q')
          && (pyStripL line).contains ':' then
        finishPair cq ca
          ++ quizLoop rest (some (pyStripL (colonTail (pyStripL line)))) none
      else if ((pyStripL line).head? == some 'A')
          && (pyStripL line).contains ':' then
        quizLoop rest cq (some (pyStripL (colonTail (pyStripL line))))
      else quizLoop rest cq ca

/-- Parsing of `generate_quiz_questions` applied to a response text:
parse the
`Qn:`/`An:` blocks, then `questions[:num_questions]`. -/
def parseQuiz (resp : String) (num_questions : Nat) :
    List (String × String) :=
  (quizLoop (splitLinesL (pyStripL resp.data)) none none).take num_questions

/-- A line whose stripped form starts with `Q:`. -/
def isQLineB (l : List Char) : Bool := ['Q', ':'].isPrefixOf (pyStripL l)

/-- A line whose stripped form starts with `A:`. -/
def isALineB (l : List Char) : Bool := ['A', ':'].isPrefixOf (pyStripL l)

lemma flashLoop_length (lines : List (List Char)) :
    ∀ cq, (flashLoop lines cq).length ≤ lines.countP isALineB
    ∧ (flashLoop lines cq).length
        ≤ lines.countP isQLineB + (if pyTruthy cq then 1 else 0) := by
  induction lines with
  | nil => intro cq; simp [flashLoop]
  | cons line rest ih =>
    intro cq
    have hA1 : rest.countP isALineB ≤ (line :: rest).countP isALineB := by
      rw [List.countP_cons]
      split <;> omega
    have hQ1 : rest.countP isQLineB ≤ (line :: rest).countP isQLineB := by
      rw [List.countP_cons]
      split <;> omega
    by_cases hq : ['Q', ':'].isPrefixOf (pyStripL line) = true
    · have hred : flashLoop (line :: rest) cq
          = flashLoop rest (some (pyStripL ((pyStripL line).drop 2))) := by
        cases cq <;> simp only [flashLoop, if_pos hq]
      have hQeq : (line :: rest).countP isQLineB
          = rest.countP isQLineB + 1 := by
        have hql : isQLineB line = true := hq
        rw [List.countP_cons, hql]
        simp
      obtain ⟨ih1, ih2⟩ := ih (some (pyStripL ((pyStripL line).drop 2)))
      constructor
      · rw [hred]
        exact ih1.trans hA1
      · rw [hred, hQeq]
        have hbi : (if pyTruthy (some (pyStripL ((pyStripL line).drop 2)))
            then 1 else 0) ≤ 1 := by split <;> omega
        exact ih2.trans (le_trans (Nat.add_le_add_left hbi _)
          (Nat.le_add_right _ _))
    · cases cq with
      | none =>
        have hred : flashLoop (line :: rest) none = flashLoop rest none := by
          simp only [flashLoop, if_neg hq]
        obtain ⟨ih1, ih2⟩ := ih none
        have ih2' : (flashLoop rest none).length ≤ rest.countP isQLineB := by
          simpa [pyTruthy] using ih2
        constructor
        · rw [hred]
          exact ih1.trans hA1
        · rw [hred]
          exact le_trans (ih2'.trans hQ1) (Nat.le_add_right _ _)
      | some q =>
        by_cases ha : (['A', ':'].isPrefixOf (pyStripL line)
            && !q.isEmpty) = true
        · have hred : flashLoop (line :: rest) (some q)
              = (String.mk q, String.mk (pyStripL ((pyStripL line).drop 2)))
                :: flashLoop rest none := by
            simp only [flashLoop, if_neg hq, if_pos ha]
          have ha' : ['A', ':'].isPrefixOf (pyStripL line) = true
              ∧ (!q.isEmpty) = true := by
            rw [← Bool.and_eq_true]
            exact ha
          have hAeq : (line :: rest).countP isALineB
              = rest.countP isALineB + 1 := by
            have hal : isALineB line = true := ha'.1
            rw [List.countP_cons, hal]
            simp
          have hTr : pyTruthy (some q) = true := ha'.2
          obtain ⟨ih1, ih2⟩ := ih none
          have ih2' : (flashLoop rest none).length
              ≤ rest.countP isQLineB := by
            simpa [pyTruthy] using ih2
          constructor
          · rw [hred, List.length_cons, hAeq]
            exact Nat.add_le_add_right ih1 1
          · rw [hred, List.length_cons, if_pos hTr]
            exact Nat.add_le_add_right (ih2'.trans hQ1) 1
        · have hred : flashLoop (line :: rest) (some q)
              = flashLoop rest (some q) := by
            simp only [flashLoop, if_neg hq, if_neg ha]
          obtain ⟨ih1, ih2⟩ := ih (some q)
          constructor
          · rw [hred]
            exact ih1.trans hA1
          · rw [hred]
            exact ih2.trans (Nat.add_le_add_right hQ1 _)

lemma finishPair_stripped (cq ca : Option (List Char))
    (hq : ∀ q, cq = some q → pyStripL q = q)
    (ha : ∀ a, ca = some a → pyStripL a = a) :
    ∀ p ∈ finishPair cq ca,
      pyStripL p.1.data = p.1.data ∧ pyStripL p.2.data = p.2.data := by
  intro p hp
  cases cq with
  | none => simp [finishPair] at hp
  | some q =>
    cases ca with
    | none => simp [finishPair] at hp
    | some a =>
      by_cases hc : (!q.isEmpty && !a.isEmpty) = true
      · simp only [finishPair, if_pos hc] at hp
        rw [List.mem_singleton.mp hp]
        exact ⟨hq q rfl, ha a rfl⟩
      · simp only [finishPair, if_neg hc] at hp
        cases hp

lemma flashLoop_stripped (lines : List (List Char)) :
    ∀ cq, (∀ q, cq = some q → pyStripL q = q) →
    ∀ p ∈ flashLoop lines cq,
      pyStripL p.1.data = p.1.data ∧ pyStripL p.2.data = p.2.data := by
  induction lines with
  | nil =>
    intro cq hcq p hp
    simp [flashLoop] at hp
  | cons line rest ih =>
    intro cq hcq p hp
    by_cases hq : ['Q', ':'].isPrefixOf (pyStripL line) = true
    · have hred : flashLoop (line :: rest) cq
          = flashLoop rest (some (pyStripL ((pyStripL line).drop 2))) := by
        cases cq <;> simp only [flashLoop, if_pos hq]
      rw [hred] at hp
      refine ih _ (fun q' he => ?_) p hp
      injection he with e
      rw [← e, pyStripL_idem]
    · cases cq with
      | none =>
        have hred : flashLoop (line :: rest) none = flashLoop rest none := by
          simp only [flashLoop, if_neg hq]
        rw [hred] at hp
        exact ih none (fun q' he => by cases he) p hp
      | some q =>
        by_cases ha : (['A', ':'].isPrefixOf (pyStripL line)
            && !q.isEmpty) = true
        · have hred : flashLoop (line :: rest) (some q)
              = (String.mk q, String.mk (pyStripL ((pyStripL line).drop 2)))
                :: flashLoop rest none := by
            simp only [flashLoop, if_neg hq, if_pos ha]
          rw [hred] at hp
          rcases List.mem_cons.mp hp with he | hm
          · rw [he]
            exact ⟨hcq q rfl, pyStripL_idem _⟩
          · exact ih none (fun q' he => by cases he) p hm
        · have hred : flashLoop (line :: rest) (some q)
              = flashLoop rest (some q) := by
            simp only [flashLoop, if_neg hq, if_neg ha]
          rw [hred] at hp
          exact ih (some q) hcq p hp

lemma quizLoop_stripped (lines : List (List Char)) :
    ∀ cq ca, (∀ q, cq = some q → pyStripL q = q) →
    (∀ a, ca = some a → pyStripL a = a) →
    ∀ p ∈ quizLoop lines cq ca,
      pyStripL p.1.data = p.1.data ∧ pyStripL p.2.data = p.2.data := by
  induction lines with
  | nil =>
    intro cq ca hq ha p hp
    simp only [quizLoop] at hp
    exact finishPair_stripped cq ca hq ha p hp
  | cons line rest ih =>
    intro cq ca hq ha p hp
    by_cases h0 : (pyStripL line).isEmpty = true
    · have hred : quizLoop (line :: rest) cq ca = quizLoop rest cq ca := by
        simp only [quizLoop, if_pos h0]
      rw [hred] at hp
      exact ih cq ca hq ha p hp
    · by_cases h1 : (((pyStripL line).head? == some 'Q')
          && (pyStripL line).contains ':') = true
      · have hred : quizLoop (line :: rest) cq ca
            = finishPair cq ca ++ quizLoop rest
                (some (pyStripL (colonTail (pyStripL line)))) none := by
          simp only [quizLoop, if_neg h0, if_pos h1]
        rw [hred] at hp
        rcases List.mem_append.mp hp with hm | hm
        · exact finishPair_stripped cq ca hq ha p hm
        · refine ih _ none (fun q' he => ?_) (fun a' he => by cases he) p hm
          injection he with e
          rw [← e, pyStripL_idem]
      · by_cases h2 : (((pyStripL line).head? == some 'A')
            && (pyStripL line).contains ':') = true
        · have hred : quizLoop (line :: rest) cq ca
              = quizLoop rest cq
                  (some (pyStripL (colonTail (pyStripL line)))) := by
            simp only [quizLoop, if_neg h0, if_neg h1, if_pos h2]
          rw [hred] at hp
          refine ih cq _ hq (fun a' he => ?_) p hp
          injection he with e
          rw [← e, pyStripL_idem]
        · have hred : quizLoop (line :: rest) cq ca
              = quizLoop rest cq ca := by
            simp only [quizLoop, if_neg h0, if_neg h1, if_neg h2]
          rw [hred] at hp
          exact ih cq ca hq ha p hp

/-- C9: the `Q:`/`A:` flashcard parser and the `Qn:`/`An:` quiz parser
emit only complete pairs — the flashcard output never exceeds the
number of question lines nor the number of answer lines (so an
unanswered question is dropped, never padded), both parsers strip
whitespace from every emitted question and answer, the quiz parser
never returns more than the requested count, and on responses with an
unanswered question or fewer blocks than requested the result is the
shorter unpadded list. -/
theorem qa_parsers_tolerant :
    (∀ resp n, (parseQuiz resp n).length ≤ n)
    ∧ (∀ resp,
        (parseFlashcards resp).length
          ≤ (splitLinesL (pyStripL resp.data)).countP isQLineB
        ∧ (parseFlashcards resp).length
          ≤ (splitLinesL (pyStripL resp.data)).countP isALineB)
    ∧ (∀ resp, ∀ p ∈ parseFlashcards resp,
        pyStripL p.1.data = p.1.data ∧ pyStripL p.2.data = p.2.data)
    ∧ (∀ resp n, ∀ p ∈ parseQuiz resp n,
        pyStripL p.1.data = p.1.data ∧ pyStripL p.2.data = p.2.data)
    ∧ parseFlashcards "Q: q1\nA: a1\nQ: q2" = [("q1", "a1")]
    ∧ parseQuiz "Q1: x\n\nQ2: y\nA2: z" 5 = [("y", "z")] := by
  refine ⟨?_, ?_, ?_, ?_, by decide, by decide⟩
  · intro resp n
    exact List.length_take_le _ _
  · intro resp
    obtain ⟨h1, h2⟩ := flashLoop_length (splitLinesL (pyStripL resp.data)) none
    exact ⟨by simpa [pyTruthy] using h2, h1⟩
  · intro resp p hp
    exact flashLoop_stripped _ none (fun q he => by cases he) p hp
  · intro resp n p hp
    have hp' : p ∈ quizLoop (splitLinesL (pyStripL resp.data)) none none :=
      (List.take_sublist _ _).mem hp
    exact quizLoop_stripped _ none none (fun q he => by cases he)
      (fun a he => by cases he) p hp'

/-- Witness for C9 at a concrete response and count. -/
theorem qa_parsers_tolerant_witness :
    (parseQuiz "Q1: a\nA1: b" 1).length ≤ 1 :=
  qa_parsers_tolerant.1 "Q1: a\nA1: b" 1

/-- A broken-down wall-clock instant, as carried by `pd.Timestamp`. -/
structure PlainTime where
  year : Nat
  month : Nat
  day : Nat
  hour : Nat
  minute : Nat
  second : Nat
  micro : Nat
deriving Repr, DecidableEq

/-- Field ranges of a real `pd.Timestamp.now()` value. -/
def validTime (t : PlainTime) : Prop :=
  t.year ≤ 9999 ∧ 1 ≤ t.month ∧ t.month ≤ 12 ∧ 1 ≤ t.day ∧ t.day ≤ 31
  ∧ t.hour ≤ 23 ∧ t.minute ≤ 59 ∧ t.second ≤ 59 ∧ t.micro ≤ 999999

instance (t : PlainTime) : Decidable (validTime t) := by
  unfold validTime; infer_instance

def digitChar (d : Nat) : Char := Char.ofNat (48 + d)

def pad2 (n : Nat) : List Char := [digitChar (n / 10 % 10), digitChar (n % 10)]

def pad4 (n : Nat) : List Char :=
  [digitChar (n / 1000 % 10), digitChar (n / 100 % 10),
   digitChar (n / 10 % 10), digitChar (n % 10)]

def pad6 (n : Nat) : List Char :=
  [digitChar (n / 100000 % 10), digitChar (n / 10000 % 10),
   digitChar (n / 1000 % 10), digitChar (n / 100 % 10),
   digitChar (n / 10 % 10), digitChar (n % 10)]

/-- Modelled from the library call `pd.Timestamp.now().isoformat()`:
`YYYY-MM-DDTHH:MM:SS` followed by `.ffffff` when the microsecond field
is nonzero. -/
def isoformat (t : PlainTime) : String :=
  String.mk (pad4 t.year ++ '-' :: pad2 t.month ++ '-' :: pad2 t.day
    ++ 'T' :: pad2 t.hour ++ ':' :: pad2 t.minute ++ ':' :: pad2 t.second
    ++ (if t.micro = 0 then [] else '.' :: pad6 t.micro))

/-- Consume exactly two decimal digits. -/
def digits2 : List Char → Option (List Char)
  | a :: b :: rest =>
      if isPyDigit a && isPyDigit b then some rest else none
  | _ => none

/-- Consume exactly four decimal digits. -/
def digits4 : List Char → Option (List Char)
  | a :: b :: c :: d :: rest =>
      if isPyDigit a && isPyDigit b && isPyDigit c && isPyDigit d then
        some rest
      else none
  | _ => none

/-- Consume exactly six decimal digits. -/
def digits6 : List Char → Option (List Char)
  | a :: b :: c :: d :: e :: f :: rest =>
      if isPyDigit a && isPyDigit b && isPyDigit c && isPyDigit d
          && isPyDigit e && isPyDigit f then
        some rest
      else none
  | _ => none

/-- Consume one expected punctuation character. -/
def expectChar (c : Char) : List Char → Option (List Char)
  | [] => none
  | d :: l => if d = c then some l else none

/-- After the seconds: either the end of the string or a `.ffffff`
fractional part. -/
def isoTail : Option (List Char) → Bool
  | none => false
  | some [] => true
  | some ('.' :: rest) => digits6 rest == some []
  | some _ => false

/-- An ISO-8601 timestamp of the shape `datetime.fromisoformat` accepts
for this producer: `YYYY-MM-DDTHH:MM:SS[.ffffff]`. -/
def isIso8601 (s : String) : Bool :=
  isoTail ((digits4 s.data).bind (expectChar '-') |>.bind digits2
    |>.bind (expectChar '-') |>.bind digits2 |>.bind (expectChar 'T')
    |>.bind digits2 |>.bind (expectChar ':') |>.bind digits2
    |>.bind (expectChar ':') |>.bind digits2)

lemma isPyDigit_mod (x : Nat) : isPyDigit (digitChar (x % 10)) = true := by
  have h : x % 10 < 10 := Nat.mod_lt x (by norm_num)
  interval_cases h' : x % 10 <;> decide

lemma isIso_isoformat (t : PlainTime) : isIso8601 (isoformat t) = true := by
  by_cases hm : t.micro = 0
  · simp [isIso8601, isoformat, pad2, pad4, pad6, hm, digits4, digits2,
      digits6, expectChar, isoTail, isPyDigit_mod]
  · simp [isIso8601, isoformat, pad2, pad4, pad6, hm, digits4, digits2,
      digits6, expectChar, isoTail, isPyDigit_mod]

/-- C7: from the empty store, `save_note(title="T", text="X",
tags="a,b", xp=7)` stamped with `pd.Timestamp.now().isoformat()`
followed by `list_notes(limit=1)` yields exactly one record with those
field values, whose timestamp parses as ISO-8601. -/
theorem create_list_roundtrip (t : PlainTime) (h : validTime t) :
    (save_note initStore (isoformat t) "T" "X" "a,b" 7).1 = 1
    ∧ list_notes (save_note initStore (isoformat t) "T" "X" "a,b" 7).2 1
        = [⟨1, isoformat t, "T", "X", "a,b", 7⟩]
    ∧ isIso8601 (isoformat t) = true :=
  ⟨rfl, rfl, isIso_isoformat t⟩

/-- Witness for C7 at a concrete timestamp. -/
theorem create_list_roundtrip_witness :
    (save_note initStore (isoformat ⟨2024, 5, 6, 7, 8, 9, 10⟩)
        "T" "X" "a,b" 7).1 = 1
    ∧ isIso8601 (isoformat ⟨2024, 5, 6, 7, 8, 9, 10⟩) = true :=
  ⟨(create_list_roundtrip ⟨2024, 5, 6, 7, 8, 9, 10⟩ (by decide)).1,
   (create_list_roundtrip ⟨2024, 5, 6, 7, 8, 9, 10⟩ (by decide)).2.2⟩
